import Mathlib

/-!
Shallow embedding of the rgraph library (src/graph.rs): a generic directed
graph stored as a singly linked list of vertices, each owning a singly
linked list of outgoing edges.

Modelling conventions:
- a Rust chain of `Option<Box<Node>>` cells is modelled as a Lean `List` of
  node records (the `next` pointer becomes the list tail);
- a Rust function that can panic (`Option::get_ref`, `Option::take_unwrap`
  or `Option::unwrap` applied to `None`) is modelled as returning `Option`,
  where `none` means the call fails instead of returning;
- a Rust method that mutates `self` and returns `bool` is modelled as a pure
  function returning the `Bool` result paired with the updated value.
Only equality on the key type is ever used by the source, so the embedding
carries a single `DecidableEq K` assumption.
-/

namespace RGraph

/-- Embeds `struct Edge<K, V>`: value, target key; the `next` pointer is
absorbed into the enclosing `List`. -/
structure Edge (K V : Type) where
  value : Option V
  to_key : K
deriving DecidableEq, Repr

/-- Embeds `Edge::new`. -/
def Edge.new {K V : Type} (to_key : K) : Edge K V :=
  { value := none, to_key := to_key }

/-- Embeds `Edge::new_with_opt`. -/
def Edge.new_with_opt {K V : Type} (to_key : K) (value : Option V) : Edge K V :=
  { value := value, to_key := to_key }

/-- Embeds `Edge::new_with_value`. -/
def Edge.new_with_value {K V : Type} (to_key : K) (value : V) : Edge K V :=
  { value := some value, to_key := to_key }

namespace VertexUtils

variable {K V : Type} [DecidableEq K]

/-- Embeds `VertexUtils::update_edge_value`: overwrite the value of the first
edge whose target key matches; no-op when not found. -/
def update_edge_value : List (Edge K V) → Option V → K → List (Edge K V)
  | [], _, _ => []
  | e :: rest, value, to_key =>
    if e.to_key = to_key then { e with value := value } :: rest
    else e :: update_edge_value rest value to_key

/-- Embeds `VertexUtils::remove_edge`: the unlink routine. It inspects
`e.next.get_ref().to_key`, so reaching a cell whose `next` is `None` panics
(modelled as `none`); a successor match is spliced out. The head cell of the
chain is never compared against the target key. -/
def remove_edge : List (Edge K V) → K → Option (List (Edge K V))
  | [], _ => some []
  | _ :: [], _ => none
  | e :: e2 :: rest2, to_key =>
    if e2.to_key = to_key then some (e :: rest2)
    else (remove_edge (e2 :: rest2) to_key).map (fun r => e :: r)

/-- Embeds `VertexUtils::get_edge_imm`: first edge with the given target key. -/
def get_edge_imm : List (Edge K V) → K → Option (Edge K V)
  | [], _ => none
  | e :: rest, to_key =>
    if e.to_key = to_key then some e else get_edge_imm rest to_key

/-- Embeds `VertexUtils::add_edge`: append at the tail of the chain. -/
def add_edge : List (Edge K V) → Edge K V → List (Edge K V)
  | [], new_edge => [new_edge]
  | e :: rest, new_edge => e :: add_edge rest new_edge

end VertexUtils

/-- Embeds `struct Vertex<K, L, V>`: key, optional label, owned edge chain;
the `next` pointer is absorbed into the enclosing `List`. -/
structure Vertex (K L V : Type) where
  key : K
  label : Option L
  edges : List (Edge K V)
deriving DecidableEq, Repr

variable {K L V : Type} [DecidableEq K]

/-- Embeds `Vertex::new`. -/
def Vertex.new (key : K) : Vertex K L V :=
  { key := key, label := none, edges := [] }

/-- Embeds `Vertex::new_with_opt`. -/
def Vertex.new_with_opt (key : K) (label : Option L) : Vertex K L V :=
  { key := key, label := label, edges := [] }

/-- Embeds `Vertex::new_with_edges`: `edges.shift()` takes the first element
as the chain head, the rest are appended through `VertexUtils::add_edge`. -/
def Vertex.new_with_edges (key : K) (edges : List (Edge K V)) : Vertex K L V :=
  match edges with
  | [] => { key := key, label := none, edges := [] }
  | h :: rest =>
    { key := key, label := none,
      edges := rest.foldl (fun c e => VertexUtils.add_edge c e) [h] }

/-- Embeds `Vertex::new_with_label`. -/
def Vertex.new_with_label (key : K) (label : L) : Vertex K L V :=
  { key := key, label := some label, edges := [] }

/-- Embeds `Vertex::new_with_label_edges`. -/
def Vertex.new_with_label_edges (key : K) (label : L) (edges : List (Edge K V)) :
    Vertex K L V :=
  match edges with
  | [] => { key := key, label := some label, edges := [] }
  | h :: rest =>
    { key := key, label := some label,
      edges := rest.foldl (fun c e => VertexUtils.add_edge c e) [h] }

/-- Embeds `Vertex::get_label`. -/
def Vertex.get_label (v : Vertex K L V) : Option L :=
  match v.label with
  | some l => some l
  | none => none

/-- Embeds `Vertex::set_label`. -/
def Vertex.set_label (v : Vertex K L V) (new_label : L) : Vertex K L V :=
  { v with label := some new_label }

/-- Embeds `Vertex::remove_label`. -/
def Vertex.remove_label (v : Vertex K L V) : Vertex K L V :=
  { v with label := none }

/-- Embeds `Vertex::edge_exist`. -/
def Vertex.edge_exist (v : Vertex K L V) (key : K) : Bool :=
  match VertexUtils.get_edge_imm v.edges key with
  | some _ => true
  | none => false

/-- Embeds `Vertex::add_edge_opt_v`. -/
def Vertex.add_edge_opt_v (v : Vertex K L V) (to_key : K) (value : Option V) :
    Bool × Vertex K L V :=
  if !v.edge_exist to_key then
    match value with
    | some w =>
      (true, { v with edges := VertexUtils.add_edge v.edges (Edge.new_with_value to_key w) })
    | none =>
      (true, { v with edges := VertexUtils.add_edge v.edges (Edge.new to_key) })
  else (false, v)

/-- Embeds `Vertex::add_edge_v`. -/
def Vertex.add_edge_v (v : Vertex K L V) (to_key : K) (value : V) :
    Bool × Vertex K L V :=
  if !v.edge_exist to_key then
    (true, { v with edges := VertexUtils.add_edge v.edges (Edge.new_with_value to_key value) })
  else (false, v)

/-- Embeds `Vertex::add_edge`. -/
def Vertex.add_edge (v : Vertex K L V) (to_key : K) : Bool × Vertex K L V :=
  if !v.edge_exist to_key then
    (true, { v with edges := VertexUtils.add_edge v.edges (Edge.new to_key) })
  else (false, v)

/-- Embeds `Vertex::remove_edge`: guarded by `edge_exist`, then delegates to
the (possibly panicking) unlink routine. -/
def Vertex.remove_edge (v : Vertex K L V) (to_key : K) :
    Option (Bool × Vertex K L V) :=
  if v.edge_exist to_key then
    (VertexUtils.remove_edge v.edges to_key).map (fun es => (true, { v with edges := es }))
  else some (false, v)

/-- Embeds `Vertex::set_edge_value_opt`. -/
def Vertex.set_edge_value_opt (v : Vertex K L V) (to_key : K) (new_value : Option V) :
    Bool × Vertex K L V :=
  if v.edge_exist to_key then
    (true, { v with edges := VertexUtils.update_edge_value v.edges new_value to_key })
  else (false, v)

/-- Embeds `Vertex::set_edge_value`. -/
def Vertex.set_edge_value (v : Vertex K L V) (to_key : K) (new_value : V) :
    Bool × Vertex K L V :=
  if v.edge_exist to_key then
    (true, { v with edges := VertexUtils.update_edge_value v.edges (some new_value) to_key })
  else (false, v)

/-- Embeds `Vertex::remove_edge_value`. -/
def Vertex.remove_edge_value (v : Vertex K L V) (to_key : K) :
    Bool × Vertex K L V :=
  if v.edge_exist to_key then
    (true, { v with edges := VertexUtils.update_edge_value v.edges none to_key })
  else (false, v)

/-- Embeds exhausting `EdgeIterator::next` on a fresh iterator: each step
yields `(&head.to_key, Some(head.value.get_ref()))`, so a cell whose value is
`None` panics (modelled as `none`). -/
def edge_iter_list {K V : Type} : List (Edge K V) → Option (List (K × Option V))
  | [] => some []
  | e :: rest =>
    match e.value with
    | none => none
    | some w => (edge_iter_list rest).map (fun t => (e.to_key, some w) :: t)

/-- Embeds exhausting `VertexIterator::next` on a fresh iterator: each step
yields `(&head.key, Some(head.label.get_ref()))`, so a vertex whose label is
`None` panics (modelled as `none`). -/
def vertex_iter_list {K L V : Type} : List (Vertex K L V) → Option (List (K × Option L))
  | [] => some []
  | v :: rest =>
    match v.label with
    | none => none
    | some l => (vertex_iter_list rest).map (fun t => (v.key, some l) :: t)

namespace GraphUtils

variable {K L V : Type} [DecidableEq K]

/-- Embeds `GraphUtils::remove_vertex`: the unlink routine on the vertex
chain, identical in shape to `VertexUtils::remove_edge` (successor-key
comparison only; reading the `next` of the last cell panics, modelled as
`none`). -/
def remove_vertex : List (Vertex K L V) → K → Option (List (Vertex K L V))
  | [], _ => some []
  | _ :: [], _ => none
  | v :: v2 :: rest2, key =>
    if v2.key = key then some (v :: rest2)
    else (remove_vertex (v2 :: rest2) key).map (fun r => v :: r)

/-- Embeds `GraphUtils::remove_edge_to`: for every vertex of the chain, if it
has an edge targeting `key`, remove that edge (which may panic), then
continue down the chain. -/
def remove_edge_to : List (Vertex K L V) → K → Option (List (Vertex K L V))
  | [], _ => some []
  | v :: rest, key =>
    match (if v.edge_exist key then (v.remove_edge key).map Prod.snd else some v) with
    | none => none
    | some v2 => (remove_edge_to rest key).map (fun r => v2 :: r)

/-- Embeds `GraphUtils::get_vertex_imm`: first vertex with the given key. -/
def get_vertex_imm : List (Vertex K L V) → K → Option (Vertex K L V)
  | [], _ => none
  | v :: rest, key =>
    if v.key = key then some v else get_vertex_imm rest key

/-- Embeds the pattern `GraphUtils::get_vertex_mut(chain, key).unwrap()`
followed by a mutating method call `f` on the found vertex: `none` when the
unwrap panics (no vertex with that key) or when `f` itself panics; otherwise
the result of `f` together with the chain carrying the updated vertex. -/
def get_vertex_mut_apply {B : Type} : List (Vertex K L V) → K →
    (Vertex K L V → Option (B × Vertex K L V)) → Option (B × List (Vertex K L V))
  | [], _, _ => none
  | v :: rest, key, f =>
    if v.key = key then (f v).map (fun p => (p.1, p.2 :: rest))
    else (get_vertex_mut_apply rest key f).map (fun p => (p.1, v :: p.2))

/-- Embeds `GraphUtils::update_vertex_label`. -/
def update_vertex_label : List (Vertex K L V) → Option L → K → List (Vertex K L V)
  | [], _, _ => []
  | v :: rest, label, key =>
    if v.key = key then { v with label := label } :: rest
    else v :: update_vertex_label rest label key

/-- Embeds `GraphUtils::add_vertex`: append at the tail of the chain. -/
def add_vertex : List (Vertex K L V) → Vertex K L V → List (Vertex K L V)
  | [], new_vertex => [new_vertex]
  | v :: rest, new_vertex => v :: add_vertex rest new_vertex

end GraphUtils

/-- Embeds `struct Graph<K, L, V>`: owned vertex chain, vertex count, and the
directedness flag. -/
structure Graph (K L V : Type) where
  vertices : List (Vertex K L V)
  len : Nat
  directed : Bool
deriving DecidableEq, Repr

/-- Embeds `Graph::new`. -/
def Graph.new : Graph K L V :=
  { vertices := [], len := 0, directed := true }

/-- Embeds `Graph::new_with_vertices`: `vertices.shift()` becomes the chain
head, the rest are appended through `GraphUtils::add_vertex`; `len` is
initialised to `0` regardless of the input. -/
def Graph.new_with_vertices (vs : List (Vertex K L V)) : Graph K L V :=
  match vs with
  | [] => { vertices := [], len := 0, directed := true }
  | h :: rest =>
    { vertices := rest.foldl (fun c v => GraphUtils.add_vertex c v) [h],
      len := 0, directed := true }

/-- Embeds `Graph::is_directed`. -/
def Graph.is_directed (g : Graph K L V) : Bool :=
  g.directed

/-- Embeds `Graph::vertex_exist`. -/
def Graph.vertex_exist (g : Graph K L V) (vertex_key : K) : Bool :=
  match GraphUtils.get_vertex_imm g.vertices vertex_key with
  | some _ => true
  | none => false

/-- Embeds `Graph::add_vertex_opt_l`. -/
def Graph.add_vertex_opt_l (g : Graph K L V) (key : K) (label : Option L) :
    Bool × Graph K L V :=
  if !g.vertex_exist key then
    match label with
    | some l =>
      (true, { g with
                 vertices := GraphUtils.add_vertex g.vertices (Vertex.new_with_label key l),
                 len := g.len + 1 })
    | none =>
      (true, { g with
                 vertices := GraphUtils.add_vertex g.vertices (Vertex.new key),
                 len := g.len + 1 })
  else (false, g)

/-- Embeds `Graph::add_vertex_l`. -/
def Graph.add_vertex_l (g : Graph K L V) (key : K) (label : L) :
    Bool × Graph K L V :=
  if !g.vertex_exist key then
    (true, { g with
               vertices := GraphUtils.add_vertex g.vertices (Vertex.new_with_label key label),
               len := g.len + 1 })
  else (false, g)

/-- Embeds `Graph::add_vertex`. -/
def Graph.add_vertex (g : Graph K L V) (key : K) : Bool × Graph K L V :=
  if !g.vertex_exist key then
    (true, { g with
               vertices := GraphUtils.add_vertex g.vertices (Vertex.new key),
               len := g.len + 1 })
  else (false, g)

/-- Embeds `Graph::get_vertex`. -/
def Graph.get_vertex (g : Graph K L V) (vertex_key : K) : Option (Vertex K L V) :=
  GraphUtils.get_vertex_imm g.vertices vertex_key

/-- Embeds `Graph::set_vertex_label_opt`. -/
def Graph.set_vertex_label_opt (g : Graph K L V) (vertex_key : K) (new_label : Option L) :
    Bool × Graph K L V :=
  if g.vertex_exist vertex_key then
    (true, { g with vertices := GraphUtils.update_vertex_label g.vertices new_label vertex_key })
  else (false, g)

/-- Embeds `Graph::set_vertex_label`. -/
def Graph.set_vertex_label (g : Graph K L V) (vertex_key : K) (new_label : L) :
    Bool × Graph K L V :=
  if g.vertex_exist vertex_key then
    (true, { g with vertices := GraphUtils.update_vertex_label g.vertices (some new_label) vertex_key })
  else (false, g)

/-- Embeds `Graph::remove_vertex_label`. -/
def Graph.remove_vertex_label (g : Graph K L V) (vertex_key : K) :
    Bool × Graph K L V :=
  if g.vertex_exist vertex_key then
    (true, { g with vertices := GraphUtils.update_vertex_label g.vertices none vertex_key })
  else (false, g)

/-- Embeds `Graph::get_vertex_label`: guarded unwrap of the vertex lookup,
then `get_label`; `none` would mean the unwrap panicked. -/
def Graph.get_vertex_label (g : Graph K L V) (vertex_key : K) : Option (Option L) :=
  if g.vertex_exist vertex_key then
    (GraphUtils.get_vertex_imm g.vertices vertex_key).map (fun v => v.get_label)
  else some none

/-- Embeds `Graph::add_edge_opt_v`. -/
def Graph.add_edge_opt_v (g : Graph K L V) (from_key to_key : K) (value : Option V) :
    Option (Bool × Graph K L V) :=
  if g.vertex_exist from_key && g.vertex_exist to_key then
    (GraphUtils.get_vertex_mut_apply g.vertices from_key
        (fun v => some (v.add_edge_opt_v to_key value))).map
      (fun p => (p.1, { g with vertices := p.2 }))
  else some (false, g)

/-- Embeds `Graph::add_edge_v`. -/
def Graph.add_edge_v (g : Graph K L V) (from_key to_key : K) (value : V) :
    Option (Bool × Graph K L V) :=
  if g.vertex_exist from_key && g.vertex_exist to_key then
    (GraphUtils.get_vertex_mut_apply g.vertices from_key
        (fun v => some (v.add_edge_v to_key value))).map
      (fun p => (p.1, { g with vertices := p.2 }))
  else some (false, g)

/-- Embeds `Graph::add_edge`. -/
def Graph.add_edge (g : Graph K L V) (from_key to_key : K) :
    Option (Bool × Graph K L V) :=
  if g.vertex_exist from_key && g.vertex_exist to_key then
    (GraphUtils.get_vertex_mut_apply g.vertices from_key
        (fun v => some (v.add_edge to_key))).map
      (fun p => (p.1, { g with vertices := p.2 }))
  else some (false, g)

/-- Embeds `Graph::set_edge_value_opt`. -/
def Graph.set_edge_value_opt (g : Graph K L V) (from_key to_key : K) (new_value : Option V) :
    Option (Bool × Graph K L V) :=
  if g.vertex_exist from_key && g.vertex_exist to_key then
    (GraphUtils.get_vertex_mut_apply g.vertices from_key
        (fun v => some (v.set_edge_value_opt to_key new_value))).map
      (fun p => (p.1, { g with vertices := p.2 }))
  else some (false, g)

/-- Embeds `Graph::set_edge_value`. -/
def Graph.set_edge_value (g : Graph K L V) (from_key to_key : K) (new_value : V) :
    Option (Bool × Graph K L V) :=
  if g.vertex_exist from_key && g.vertex_exist to_key then
    (GraphUtils.get_vertex_mut_apply g.vertices from_key
        (fun v => some (v.set_edge_value to_key new_value))).map
      (fun p => (p.1, { g with vertices := p.2 }))
  else some (false, g)

/-- Embeds `Graph::remove_edge_value`. -/
def Graph.remove_edge_value (g : Graph K L V) (from_key to_key : K) :
    Option (Bool × Graph K L V) :=
  if g.vertex_exist from_key && g.vertex_exist to_key then
    (GraphUtils.get_vertex_mut_apply g.vertices from_key
        (fun v => some (v.remove_edge_value to_key))).map
      (fun p => (p.1, { g with vertices := p.2 }))
  else some (false, g)

/-- Embeds `Graph::edge_exist`. -/
def Graph.edge_exist (g : Graph K L V) (from_key to_key : K) : Bool :=
  match GraphUtils.get_vertex_imm g.vertices from_key with
  | some v => v.edge_exist to_key
  | none => false

/-- Embeds `Graph::adjacent`: both vertices must exist, then the guarded
unwrap of the lookup of `from_key`; `none` would mean the unwrap panicked. -/
def Graph.adjacent (g : Graph K L V) (from_key to_key : K) : Option Bool :=
  if g.vertex_exist from_key && g.vertex_exist to_key then
    (GraphUtils.get_vertex_imm g.vertices from_key).map (fun v => v.edge_exist to_key)
  else some false

/-- Embeds `Graph::remove_edge`. -/
def Graph.remove_edge (g : Graph K L V) (from_key to_key : K) :
    Option (Bool × Graph K L V) :=
  if g.vertex_exist from_key && g.vertex_exist to_key then
    (GraphUtils.get_vertex_mut_apply g.vertices from_key
        (fun v => v.remove_edge to_key)).map
      (fun p => (p.1, { g with vertices := p.2 }))
  else some (false, g)

/-- Embeds `Graph::remove_vertex`: unlink the vertex from the chain, then
remove every edge of the remaining chain that targets its key; `len` is not
changed. Either step may panic (modelled as `none`). -/
def Graph.remove_vertex (g : Graph K L V) (vertex_key : K) :
    Option (Bool × Graph K L V) :=
  if g.vertex_exist vertex_key then
    (GraphUtils.remove_vertex g.vertices vertex_key).bind (fun c1 =>
      (GraphUtils.remove_edge_to c1 vertex_key).map (fun c2 =>
        (true, { g with vertices := c2 })))
  else some (false, g)

/-- Embeds `Container::is_empty` for `Graph` (`len()` is the `len` field
itself). -/
def Graph.is_empty (g : Graph K L V) : Bool :=
  g.len == 0

/-- Embeds `Mutable::clear` for `Graph`. -/
def Graph.clear (g : Graph K L V) : Graph K L V :=
  { g with vertices := [], len := 0 }

/-- The well-formedness invariant of the data model: vertex keys are unique
across the graph and edge target keys are unique within each vertex. The
mutating API maintains it; the bulk constructors leave it as a caller
obligation. -/
@[reducible] def WF (g : Graph K L V) : Prop :=
  (g.vertices.map Vertex.key).Nodup ∧
  ∀ v ∈ g.vertices, (v.edges.map Edge.to_key).Nodup

/-- The no-dangling-edge invariant of the data model: every edge target key
is the key of some vertex currently in the graph. -/
@[reducible] def NoDangling (g : Graph K L V) : Prop :=
  ∀ v ∈ g.vertices, ∀ e ∈ v.edges, e.to_key ∈ g.vertices.map Vertex.key

/-- Concrete one-vertex graph (key 0, no label, no edges), as produced by
`Graph::new` followed by `add_vertex(0)`. -/
def exOne : Graph Nat Nat Nat :=
  { vertices := [{ key := 0, label := none, edges := [] }], len := 1, directed := true }

/-- Concrete two-vertex graph with the single edge 0 -> 1, as produced by
`new`, `add_vertex(0)`, `add_vertex(1)`, `add_edge(0, 1)`. -/
def exTwo : Graph Nat Nat Nat :=
  { vertices := [{ key := 0, label := none, edges := [{ value := none, to_key := 1 }] },
                 { key := 1, label := none, edges := [] }],
    len := 2, directed := true }

/-- Concrete three-vertex graph with edges 0 -> 2 and 0 -> 1 (in that chain
order), as produced by `new`, `add_vertex` 0,1,2, `add_edge(0,2)`,
`add_edge(0,1)`. -/
def exC2pre : Graph Nat Nat Nat :=
  { vertices := [{ key := 0, label := none,
                   edges := [{ value := none, to_key := 2 }, { value := none, to_key := 1 }] },
                 { key := 1, label := none, edges := [] },
                 { key := 2, label := none, edges := [] }],
    len := 3, directed := true }

/-- The graph `exC2pre` after `remove_vertex(1)`: vertex 1 unlinked, the edge
0 -> 1 removed, `len` untouched by the source code. -/
def exC2post : Graph Nat Nat Nat :=
  { vertices := [{ key := 0, label := none, edges := [{ value := none, to_key := 2 }] },
                 { key := 2, label := none, edges := [] }],
    len := 3, directed := true }

/-- Concrete labelled two-vertex graph with the single edge 3 -> 4 carrying a
value, used to exercise the edge-removal code. -/
def exC4g : Graph Nat Nat Nat :=
  { vertices := [{ key := 3, label := some 0, edges := [{ value := some 9, to_key := 4 }] },
                 { key := 4, label := some 0, edges := [] }],
    len := 2, directed := true }

/-- Concrete standalone vertex with a single edge 9 -> 5. -/
def exC7v : Vertex Nat Nat Nat :=
  { key := 9, label := none, edges := [{ value := none, to_key := 5 }] }

end RGraph

/-!
Lemmas about the chain helpers.
-/

namespace RGraph

variable {K L V : Type} [DecidableEq K]

theorem VertexUtils.add_edge_eq_append (c : List (Edge K V)) (e : Edge K V) :
    VertexUtils.add_edge c e = c ++ [e] := by
  induction c with
  | nil => rfl
  | cons x rest ih => simp [VertexUtils.add_edge, ih]

theorem GraphUtils.add_vertex_eq_append (c : List (Vertex K L V)) (v : Vertex K L V) :
    GraphUtils.add_vertex c v = c ++ [v] := by
  induction c with
  | nil => rfl
  | cons x rest ih => simp [GraphUtils.add_vertex, ih]

theorem VertexUtils.get_edge_imm_some {c : List (Edge K V)} {k : K} {e : Edge K V}
    (h : VertexUtils.get_edge_imm c k = some e) : e ∈ c ∧ e.to_key = k := by
  induction c with
  | nil => simp [VertexUtils.get_edge_imm] at h
  | cons x rest ih =>
    by_cases hx : x.to_key = k
    · simp [VertexUtils.get_edge_imm, hx] at h
      subst h
      exact ⟨List.mem_cons_self x rest, hx⟩
    · simp [VertexUtils.get_edge_imm, hx] at h
      obtain ⟨hm, hk⟩ := ih h
      exact ⟨List.mem_cons_of_mem x hm, hk⟩

theorem VertexUtils.get_edge_imm_eq_none {c : List (Edge K V)} {k : K}
    (h : ∀ e ∈ c, e.to_key ≠ k) : VertexUtils.get_edge_imm c k = none := by
  induction c with
  | nil => rfl
  | cons x rest ih =>
    have hx : x.to_key ≠ k := h x (List.mem_cons_self x rest)
    simp [VertexUtils.get_edge_imm, hx]
    exact ih (fun e he => h e (List.mem_cons_of_mem x he))

theorem GraphUtils.get_vertex_imm_some {c : List (Vertex K L V)} {k : K} {v : Vertex K L V}
    (h : GraphUtils.get_vertex_imm c k = some v) : v ∈ c ∧ v.key = k := by
  induction c with
  | nil => simp [GraphUtils.get_vertex_imm] at h
  | cons x rest ih =>
    by_cases hx : x.key = k
    · simp [GraphUtils.get_vertex_imm, hx] at h
      subst h
      exact ⟨List.mem_cons_self x rest, hx⟩
    · simp [GraphUtils.get_vertex_imm, hx] at h
      obtain ⟨hm, hk⟩ := ih h
      exact ⟨List.mem_cons_of_mem x hm, hk⟩

theorem GraphUtils.get_vertex_imm_eq_none {c : List (Vertex K L V)} {k : K}
    (h : ∀ v ∈ c, v.key ≠ k) : GraphUtils.get_vertex_imm c k = none := by
  induction c with
  | nil => rfl
  | cons x rest ih =>
    have hx : x.key ≠ k := h x (List.mem_cons_self x rest)
    simp [GraphUtils.get_vertex_imm, hx]
    exact ih (fun v hv => h v (List.mem_cons_of_mem x hv))

theorem Vertex.edge_exist_eq (v : Vertex K L V) (k : K) :
    v.edge_exist k = (VertexUtils.get_edge_imm v.edges k).isSome := by
  cases h : VertexUtils.get_edge_imm v.edges k <;> simp [Vertex.edge_exist, h]

theorem Graph.vertex_exist_eq (g : Graph K L V) (k : K) :
    g.vertex_exist k = (GraphUtils.get_vertex_imm g.vertices k).isSome := by
  cases h : GraphUtils.get_vertex_imm g.vertices k <;> simp [Graph.vertex_exist, h]

theorem GraphUtils.get_vertex_imm_decomp {c : List (Vertex K L V)} {k : K} {v : Vertex K L V}
    (h : GraphUtils.get_vertex_imm c k = some v) :
    ∃ pre post, c = pre ++ v :: post ∧ ∀ u ∈ pre, u.key ≠ k := by
  induction c with
  | nil => simp [GraphUtils.get_vertex_imm] at h
  | cons x rest ih =>
    by_cases hx : x.key = k
    · simp [GraphUtils.get_vertex_imm, hx] at h
      subst h
      exact ⟨[], rest, rfl, by simp⟩
    · simp [GraphUtils.get_vertex_imm, hx] at h
      obtain ⟨pre, post, hc, hpre⟩ := ih h
      refine ⟨x :: pre, post, by simp [hc], ?_⟩
      intro u hu
      rcases List.mem_cons.mp hu with h1 | h1
      · subst h1; exact hx
      · exact hpre u h1

theorem GraphUtils.get_vertex_imm_append {pre post : List (Vertex K L V)}
    {v : Vertex K L V} {k : K}
    (hpre : ∀ u ∈ pre, u.key ≠ k) (hv : v.key = k) :
    GraphUtils.get_vertex_imm (pre ++ v :: post) k = some v := by
  induction pre with
  | nil => simp [GraphUtils.get_vertex_imm, hv]
  | cons x rest ih =>
    have hx : x.key ≠ k := hpre x (List.mem_cons_self x rest)
    simp [GraphUtils.get_vertex_imm, hx]
    exact ih (fun u hu => hpre u (List.mem_cons_of_mem x hu))

theorem GraphUtils.get_vertex_mut_apply_decomp {B : Type}
    (f : Vertex K L V → Option (B × Vertex K L V))
    {pre post : List (Vertex K L V)} {v : Vertex K L V} {k : K}
    (hpre : ∀ u ∈ pre, u.key ≠ k) (hv : v.key = k) :
    GraphUtils.get_vertex_mut_apply (pre ++ v :: post) k f
      = (f v).map (fun p => (p.1, pre ++ p.2 :: post)) := by
  induction pre with
  | nil => simp [GraphUtils.get_vertex_mut_apply, hv]
  | cons x rest ih =>
    have hx : x.key ≠ k := hpre x (List.mem_cons_self x rest)
    have ih2 := ih (fun u hu => hpre u (List.mem_cons_of_mem x hu))
    simp [GraphUtils.get_vertex_mut_apply, hx, ih2]
    cases f v <;> simp

end RGraph

namespace RGraph

set_option linter.unusedSectionVars false

variable {K L V : Type} [DecidableEq K]

theorem VertexUtils.remove_edge_not_found {c : List (Edge K V)} {k : K}
    (hne : c ≠ []) (h : ∀ e ∈ c, e.to_key ≠ k) : VertexUtils.remove_edge c k = none := by
  induction c with
  | nil => exact absurd rfl hne
  | cons x rest ih =>
    cases rest with
    | nil => rfl
    | cons x2 r2 =>
      have hx2 : x2.to_key ≠ k := h x2 (by simp)
      have h2 : VertexUtils.remove_edge (x2 :: r2) k = none :=
        ih (by simp) (fun e he => h e (List.mem_cons_of_mem x he))
      simp [VertexUtils.remove_edge, hx2, h2]

theorem VertexUtils.remove_edge_head {c : List (Edge K V)} {x : Edge K V} {k : K}
    (hx : x.to_key = k) (h : ∀ e ∈ c, e.to_key ≠ k) :
    VertexUtils.remove_edge (x :: c) k = none := by
  cases c with
  | nil => rfl
  | cons x2 r2 =>
    have hx2 : x2.to_key ≠ k := h x2 (by simp)
    have h2 : VertexUtils.remove_edge (x2 :: r2) k = none :=
      VertexUtils.remove_edge_not_found (by simp) h
    simp [VertexUtils.remove_edge, hx2, h2]

theorem VertexUtils.remove_edge_some {c : List (Edge K V)} {k : K}
    (hnd : (c.map Edge.to_key).Nodup) {c1 : List (Edge K V)}
    (h : VertexUtils.remove_edge c k = some c1) :
    (∀ e ∈ c1, e ∈ c) ∧ k ∉ c1.map Edge.to_key := by
  induction c generalizing c1 with
  | nil =>
    simp [VertexUtils.remove_edge] at h
    subst h
    simp
  | cons x rest ih =>
    cases rest with
    | nil => simp [VertexUtils.remove_edge] at h
    | cons x2 r2 =>
      simp only [List.map_cons, List.nodup_cons, List.mem_cons, List.mem_map] at hnd
      by_cases hx2 : x2.to_key = k
      · have hc1 : c1 = x :: r2 := by
          simp [VertexUtils.remove_edge, hx2] at h
          exact h.symm
        subst hc1
        constructor
        · intro e he
          rcases List.mem_cons.mp he with h1 | h1
          · simp [h1]
          · simp [h1]
        · intro hmem
          simp only [List.map_cons, List.mem_cons] at hmem
          rcases hmem with h1 | h1
          · exact hnd.1 (Or.inl (hx2 ▸ h1.symm ▸ rfl))
          · rcases List.mem_map.mp h1 with ⟨e, he, hek⟩
            exact hnd.2.1 ⟨e, he, by rw [hek, hx2]⟩
      · by_cases hxk : x.to_key = k
        · exfalso
          have hnone : VertexUtils.remove_edge (x2 :: r2) k = none := by
            refine VertexUtils.remove_edge_not_found (by simp) ?_
            intro e he heq
            exact hnd.1 (by
              rcases List.mem_cons.mp he with h1 | h1
              · exact Or.inl (by rw [hxk, ← heq, h1])
              · exact Or.inr ⟨e, h1, by rw [heq, hxk]⟩)
          simp [VertexUtils.remove_edge, hx2, hnone] at h
        · have hmap : (VertexUtils.remove_edge (x2 :: r2) k).map (fun r => x :: r) = some c1 := by
            simpa [VertexUtils.remove_edge, hx2] using h
          cases hr : VertexUtils.remove_edge (x2 :: r2) k with
          | none => simp [hr] at hmap
          | some r1 =>
            simp [hr] at hmap
            subst hmap
            have hnd2 : ((x2 :: r2).map Edge.to_key).Nodup := by
              simp only [List.map_cons, List.nodup_cons]
              exact ⟨fun hmem => hnd.2.1 (by simpa using hmem), hnd.2.2⟩
            obtain ⟨hsub, hk⟩ := ih hnd2 hr
            constructor
            · intro e he
              rcases List.mem_cons.mp he with h1 | h1
              · simp [h1]
              · exact List.mem_cons_of_mem x (hsub e h1)
            · intro hmem
              simp only [List.map_cons, List.mem_cons] at hmem
              rcases hmem with h1 | h1
              · exact hxk h1.symm
              · exact hk h1

end RGraph

namespace RGraph

set_option linter.unusedSectionVars false
set_option linter.unusedVariables false

variable {K L V : Type} [DecidableEq K]

theorem GraphUtils.remove_vertex_not_found {c : List (Vertex K L V)} {k : K}
    (hne : c ≠ []) (h : ∀ v ∈ c, v.key ≠ k) : GraphUtils.remove_vertex c k = none := by
  induction c with
  | nil => exact absurd rfl hne
  | cons x rest ih =>
    cases rest with
    | nil => rfl
    | cons x2 r2 =>
      have hx2 : x2.key ≠ k := h x2 (by simp)
      have h2 : GraphUtils.remove_vertex (x2 :: r2) k = none :=
        ih (by simp) (fun v hv => h v (List.mem_cons_of_mem x hv))
      simp [GraphUtils.remove_vertex, hx2, h2]

theorem GraphUtils.remove_vertex_head {c : List (Vertex K L V)} {x : Vertex K L V} {k : K}
    (hx : x.key = k) (h : ∀ v ∈ c, v.key ≠ k) :
    GraphUtils.remove_vertex (x :: c) k = none := by
  cases c with
  | nil => rfl
  | cons x2 r2 =>
    have hx2 : x2.key ≠ k := h x2 (by simp)
    have h2 : GraphUtils.remove_vertex (x2 :: r2) k = none :=
      GraphUtils.remove_vertex_not_found (by simp) h
    simp [GraphUtils.remove_vertex, hx2, h2]

theorem GraphUtils.remove_vertex_some {c : List (Vertex K L V)} {k : K}
    (hnd : (c.map Vertex.key).Nodup) {c1 : List (Vertex K L V)}
    (h : GraphUtils.remove_vertex c k = some c1) :
    (∀ v ∈ c1, v ∈ c) ∧ k ∉ c1.map Vertex.key := by
  induction c generalizing c1 with
  | nil =>
    simp [GraphUtils.remove_vertex] at h
    subst h
    simp
  | cons x rest ih =>
    cases rest with
    | nil => simp [GraphUtils.remove_vertex] at h
    | cons x2 r2 =>
      simp only [List.map_cons, List.nodup_cons, List.mem_cons, List.mem_map] at hnd
      by_cases hx2 : x2.key = k
      · have hc1 : c1 = x :: r2 := by
          simp [GraphUtils.remove_vertex, hx2] at h
          exact h.symm
        subst hc1
        constructor
        · intro v hv
          rcases List.mem_cons.mp hv with h1 | h1
          · simp [h1]
          · simp [h1]
        · intro hmem
          simp only [List.map_cons, List.mem_cons] at hmem
          rcases hmem with h1 | h1
          · exact hnd.1 (Or.inl (by rw [hx2, ← h1]))
          · rcases List.mem_map.mp h1 with ⟨v, hv, hvk⟩
            exact hnd.2.1 ⟨v, hv, by rw [hvk, hx2]⟩
      · by_cases hxk : x.key = k
        · exfalso
          have hnone : GraphUtils.remove_vertex (x2 :: r2) k = none := by
            refine GraphUtils.remove_vertex_not_found (by simp) ?_
            intro v hv heq
            exact hnd.1 (by
              rcases List.mem_cons.mp hv with h1 | h1
              · exact Or.inl (by rw [hxk, ← heq, h1])
              · exact Or.inr ⟨v, h1, by rw [heq, hxk]⟩)
          simp [GraphUtils.remove_vertex, hx2, hnone] at h
        · have hmap : (GraphUtils.remove_vertex (x2 :: r2) k).map (fun r => x :: r) = some c1 := by
            simpa [GraphUtils.remove_vertex, hx2] using h
          cases hr : GraphUtils.remove_vertex (x2 :: r2) k with
          | none => simp [hr] at hmap
          | some r1 =>
            simp [hr] at hmap
            subst hmap
            have hnd2 : ((x2 :: r2).map Vertex.key).Nodup := by
              simp only [List.map_cons, List.nodup_cons]
              exact ⟨fun hmem => hnd.2.1 (by simpa using hmem), hnd.2.2⟩
            obtain ⟨hsub, hk⟩ := ih hnd2 hr
            constructor
            · intro v hv
              rcases List.mem_cons.mp hv with h1 | h1
              · simp [h1]
              · exact List.mem_cons_of_mem x (hsub v h1)
            · intro hmem
              simp only [List.map_cons, List.mem_cons] at hmem
              rcases hmem with h1 | h1
              · exact hxk h1.symm
              · exact hk h1

theorem Vertex.remove_edge_false {v w : Vertex K L V} {k : K}
    (h : v.remove_edge k = some (false, w)) : w = v := by
  by_cases he : v.edge_exist k
  · exfalso
    simp [Vertex.remove_edge, he] at h
  · simp [Vertex.remove_edge, he] at h
    exact h.symm

theorem Vertex.remove_edge_true {v w : Vertex K L V} {k : K}
    (h : v.remove_edge k = some (true, w)) :
    ∃ es, VertexUtils.remove_edge v.edges k = some es ∧ w = { v with edges := es } := by
  by_cases he : v.edge_exist k
  · simp [Vertex.remove_edge, he] at h
    cases hr : VertexUtils.remove_edge v.edges k with
    | none => simp [hr] at h
    | some es =>
      simp [hr] at h
      exact ⟨es, rfl, h.symm⟩
  · simp [Vertex.remove_edge, he] at h

theorem GraphUtils.remove_edge_to_step {v v2 : Vertex K L V} {k : K}
    (hv : (if v.edge_exist k then (v.remove_edge k).map Prod.snd else some v) = some v2) :
    v2.key = v.key ∧ ((v.edges.map Edge.to_key).Nodup → v2.edge_exist k = false) := by
  by_cases he : v.edge_exist k
  · simp only [he, if_true] at hv
    cases hrem : v.remove_edge k with
    | none => simp [hrem] at hv
    | some p =>
      simp [hrem] at hv
      cases p with
      | mk b w =>
        cases b with
        | false =>
          exfalso
          simp [Vertex.remove_edge, he] at hrem
        | true =>
          obtain ⟨es, hes, hw⟩ := Vertex.remove_edge_true hrem
          have hv2 : v2 = { v with edges := es } := by
            simp at hv
            rw [← hv, hw]
          subst hv2
          refine ⟨rfl, fun hnd => ?_⟩
          obtain ⟨hsub, hk⟩ := VertexUtils.remove_edge_some hnd hes
          rw [Vertex.edge_exist_eq]
          have : VertexUtils.get_edge_imm es k = none := by
            refine VertexUtils.get_edge_imm_eq_none ?_
            intro e hemem heq
            exact hk (List.mem_map.mpr ⟨e, hemem, heq⟩)
          simp [this]
  · simp only [he, if_false] at hv
    have hv2 : v2 = v := by simpa using hv.symm
    subst hv2
    exact ⟨rfl, fun _ => by simpa using he⟩

theorem GraphUtils.remove_edge_to_spec {c : List (Vertex K L V)} {k : K}
    {c2 : List (Vertex K L V)}
    (h : GraphUtils.remove_edge_to c k = some c2) :
    c2.map Vertex.key = c.map Vertex.key ∧
    ((∀ v ∈ c, (v.edges.map Edge.to_key).Nodup) → ∀ v ∈ c2, v.edge_exist k = false) := by
  induction c generalizing c2 with
  | nil =>
    simp [GraphUtils.remove_edge_to] at h
    subst h
    simp
  | cons v rest ih =>
    cases hv : (if v.edge_exist k then (v.remove_edge k).map Prod.snd else some v) with
    | none => simp [GraphUtils.remove_edge_to, hv] at h
    | some v2 =>
      have hmap : (GraphUtils.remove_edge_to rest k).map (fun r => v2 :: r) = some c2 := by
        simpa [GraphUtils.remove_edge_to, hv] using h
      cases hr : GraphUtils.remove_edge_to rest k with
      | none => simp [hr] at hmap
      | some r2 =>
        simp [hr] at hmap
        subst hmap
        obtain ⟨hkey, hnoedge⟩ := GraphUtils.remove_edge_to_step hv
        obtain ⟨ihkeys, ihno⟩ := ih hr
        constructor
        · simp [hkey, ihkeys]
        · intro hnd u hu
          rcases List.mem_cons.mp hu with h1 | h1
          · subst h1
            exact hnoedge (hnd v (by simp))
          · exact ihno (fun w hw => hnd w (List.mem_cons_of_mem v hw)) u h1

end RGraph

namespace RGraph

set_option linter.unusedSectionVars false
set_option linter.unusedVariables false

variable {K L V : Type} [DecidableEq K]

theorem GraphUtils.get_vertex_mut_apply_false {c : List (Vertex K L V)} {k : K}
    {f : Vertex K L V → Option (Bool × Vertex K L V)}
    (hf : ∀ v w, f v = some (false, w) → w = v)
    {c2 : List (Vertex K L V)}
    (h : GraphUtils.get_vertex_mut_apply c k f = some (false, c2)) : c2 = c := by
  induction c generalizing c2 with
  | nil => simp [GraphUtils.get_vertex_mut_apply] at h
  | cons x rest ih =>
    by_cases hx : x.key = k
    · have hmap : (f x).map (fun p => (p.1, p.2 :: rest)) = some (false, c2) := by
        simpa [GraphUtils.get_vertex_mut_apply, hx] using h
      cases hfx : f x with
      | none => simp [hfx] at hmap
      | some p =>
        cases p with
        | mk b w =>
          simp [hfx] at hmap
          obtain ⟨hb, hc⟩ := hmap
          subst hb
          rw [← hc, hf x w hfx]
    · have hmap : (GraphUtils.get_vertex_mut_apply rest k f).map (fun p => (p.1, x :: p.2))
          = some (false, c2) := by
        simpa [GraphUtils.get_vertex_mut_apply, hx] using h
      cases hr : GraphUtils.get_vertex_mut_apply rest k f with
      | none => simp [hr] at hmap
      | some q =>
        cases q with
        | mk b r =>
          simp [hr] at hmap
          obtain ⟨hb, hc⟩ := hmap
          subst hb
          rw [← hc, ih hr]

theorem Vertex.add_edge_false_eq {v w : Vertex K L V} {k : K}
    (h : v.add_edge k = (false, w)) : w = v := by
  by_cases he : v.edge_exist k
  · simp [Vertex.add_edge, he] at h
    exact h.symm
  · simp [Vertex.add_edge, he] at h

theorem Vertex.add_edge_v_false_eq {v w : Vertex K L V} {k : K} {x : V}
    (h : v.add_edge_v k x = (false, w)) : w = v := by
  by_cases he : v.edge_exist k
  · simp [Vertex.add_edge_v, he] at h
    exact h.symm
  · simp [Vertex.add_edge_v, he] at h

theorem Vertex.add_edge_opt_v_false_eq {v w : Vertex K L V} {k : K} {ox : Option V}
    (h : v.add_edge_opt_v k ox = (false, w)) : w = v := by
  by_cases he : v.edge_exist k
  · cases ox <;> simp [Vertex.add_edge_opt_v, he] at h <;> exact h.symm
  · cases ox <;> simp [Vertex.add_edge_opt_v, he] at h

theorem Vertex.set_edge_value_false_eq {v w : Vertex K L V} {k : K} {x : V}
    (h : v.set_edge_value k x = (false, w)) : w = v := by
  by_cases he : v.edge_exist k
  · simp [Vertex.set_edge_value, he] at h
  · simp [Vertex.set_edge_value, he] at h
    exact h.symm

theorem Vertex.set_edge_value_opt_false_eq {v w : Vertex K L V} {k : K} {ox : Option V}
    (h : v.set_edge_value_opt k ox = (false, w)) : w = v := by
  by_cases he : v.edge_exist k
  · simp [Vertex.set_edge_value_opt, he] at h
  · simp [Vertex.set_edge_value_opt, he] at h
    exact h.symm

theorem Vertex.remove_edge_value_false_eq {v w : Vertex K L V} {k : K}
    (h : v.remove_edge_value k = (false, w)) : w = v := by
  by_cases he : v.edge_exist k
  · simp [Vertex.remove_edge_value, he] at h
  · simp [Vertex.remove_edge_value, he] at h
    exact h.symm

theorem GraphUtils.get_vertex_imm_none_forall {c : List (Vertex K L V)} {k : K}
    (h : GraphUtils.get_vertex_imm c k = none) : ∀ v ∈ c, v.key ≠ k := by
  induction c with
  | nil => simp
  | cons x rest ih =>
    by_cases hx : x.key = k
    · simp [GraphUtils.get_vertex_imm, hx] at h
    · simp [GraphUtils.get_vertex_imm, hx] at h
      intro v hv
      rcases List.mem_cons.mp hv with h1 | h1
      · subst h1; exact hx
      · exact ih h v h1

theorem VertexUtils.get_edge_imm_none_forall {c : List (Edge K V)} {k : K}
    (h : VertexUtils.get_edge_imm c k = none) : ∀ e ∈ c, e.to_key ≠ k := by
  induction c with
  | nil => simp
  | cons x rest ih =>
    by_cases hx : x.to_key = k
    · simp [VertexUtils.get_edge_imm, hx] at h
    · simp [VertexUtils.get_edge_imm, hx] at h
      intro e he
      rcases List.mem_cons.mp he with h1 | h1
      · subst h1; exact hx
      · exact ih h e h1

theorem VertexUtils.get_edge_imm_append {c : List (Edge K V)} {k : K}
    (hnone : ∀ e ∈ c, e.to_key ≠ k) {w : Edge K V} (hw : w.to_key = k) :
    VertexUtils.get_edge_imm (c ++ [w]) k = some w := by
  induction c with
  | nil => simp [VertexUtils.get_edge_imm, hw]
  | cons x rest ih =>
    have hx : x.to_key ≠ k := hnone x (List.mem_cons_self x rest)
    simp only [List.cons_append]
    simp [VertexUtils.get_edge_imm, hx]
    exact ih (fun e he => hnone e (List.mem_cons_of_mem x he))

end RGraph

/-!
Claim theorems.
-/

namespace RGraph

set_option linter.unusedSectionVars false
set_option linter.unusedVariables false

variable {K L V : Type} [DecidableEq K]

/-- Claim C1: the claim states that `len()` always equals the number of
vertices reachable by walking the vertex chain, for every construction and
add/remove sequence. The code violates this: `new_with_vertices` initialises
`len` to 0 regardless of its input, and `remove_vertex` never decrements
`len`. This theorem evaluates both failing inputs: a bulk-built one-vertex
graph has `len` 0 but one reachable vertex, and removing vertex 1 from the
three-vertex graph `exC2pre` succeeds yet leaves `len` at 3 with only two
vertices reachable. -/
theorem claim_c1_len_not_consistent :
    (Graph.new_with_vertices [(Vertex.new 0 : Vertex Nat Nat Nat)]).len = 0 ∧
    (Graph.new_with_vertices [(Vertex.new 0 : Vertex Nat Nat Nat)]).vertices.length = 1 ∧
    exC2pre.remove_vertex 1 = some (true, exC2post) ∧
    exC2post.len = 3 ∧ exC2post.vertices.length = 2 := by
  refine ⟨rfl, rfl, by decide, rfl, rfl⟩

/-- Claim C3 counterexample: the claim states that removing the key of the
first vertex in the chain returns true and leaves the chain unchanged. On the
one-vertex graph `exOne` the call does not return at all: the unlink routine
reads the `next` pointer of the only cell and panics, so `remove_vertex 0`
is `none`, not `some (true, exOne)`. -/
theorem claim_c3_counterexample : exOne.remove_vertex 0 = none := by decide

/-- Claim C3 amended: when the target key sits at the head of the vertex
chain (respectively at the head of an edge chain), the public
`remove_vertex` (respectively `remove_edge`) call takes the exists branch
but then fails (panics) instead of returning true: the unlink routine only
compares successor keys, never removes a head-position match, and runs off
the end of the chain where it unwraps an absent `next` pointer. -/
theorem claim_c3_head_removal_fails (g : Graph K L V) (k fk t : K)
    (v u : Vertex K L V) (rest : List (Vertex K L V)) (e : Edge K V)
    (es : List (Edge K V)) :
    (g.vertices = v :: rest → v.key = k → (g.vertices.map Vertex.key).Nodup →
      g.remove_vertex k = none) ∧
    (GraphUtils.get_vertex_imm g.vertices fk = some u → u.edges = e :: es →
      e.to_key = t → (u.edges.map Edge.to_key).Nodup → g.vertex_exist t = true →
      g.remove_edge fk t = none) := by
  constructor
  · intro hchain hkey hnd
    have hex : g.vertex_exist k = true := by
      rw [Graph.vertex_exist_eq, hchain]
      simp [GraphUtils.get_vertex_imm, hkey]
    have hrest : ∀ w ∈ rest, w.key ≠ k := by
      rw [hchain] at hnd
      simp only [List.map_cons, List.nodup_cons] at hnd
      intro w hw heq
      exact hnd.1 (List.mem_map.mpr ⟨w, hw, heq.trans hkey.symm⟩)
    have hnone : GraphUtils.remove_vertex g.vertices k = none := by
      rw [hchain]
      exact GraphUtils.remove_vertex_head hkey hrest
    simp [Graph.remove_vertex, hex, hnone]
  · intro hu hedges het hnd hext
    have hexf : g.vertex_exist fk = true := by
      rw [Graph.vertex_exist_eq, hu]
      rfl
    obtain ⟨pre, post, hc, hpre⟩ := GraphUtils.get_vertex_imm_decomp hu
    have hukey : u.key = fk := (GraphUtils.get_vertex_imm_some hu).2
    have hues : VertexUtils.remove_edge u.edges t = none := by
      rw [hedges] at hnd ⊢
      simp only [List.map_cons, List.nodup_cons] at hnd
      refine VertexUtils.remove_edge_head het ?_
      intro e2 he2 heq
      exact hnd.1 (List.mem_map.mpr ⟨e2, he2, heq.trans het.symm⟩)
    have huexist : u.edge_exist t = true := by
      rw [Vertex.edge_exist_eq, hedges]
      simp [VertexUtils.get_edge_imm, het]
    have hfu : u.remove_edge t = none := by
      simp [Vertex.remove_edge, huexist, hues]
    have hmut : GraphUtils.get_vertex_mut_apply g.vertices fk
        (fun w => w.remove_edge t) = none := by
      rw [hc, GraphUtils.get_vertex_mut_apply_decomp _ hpre hukey, hfu]
      rfl
    simp [Graph.remove_edge, hexf, hext, hmut]

/-- Claim C3 witness: on the two-vertex graph with edge 0 -> 1, removing the
head vertex 0 fails, and removing the head edge 0 -> 1 fails. -/
theorem claim_c3_head_removal_fails_witness :
    exTwo.remove_vertex 0 = none ∧ exTwo.remove_edge 0 1 = none := by
  constructor
  · exact (claim_c3_head_removal_fails exTwo 0 0 1
      { key := 0, label := none, edges := [{ value := none, to_key := 1 }] }
      { key := 0, label := none, edges := [{ value := none, to_key := 1 }] }
      [{ key := 1, label := none, edges := [] }]
      { value := none, to_key := 1 } []).1 rfl rfl (by decide)
  · exact (claim_c3_head_removal_fails exTwo 0 0 1
      { key := 0, label := none, edges := [{ value := none, to_key := 1 }] }
      { key := 0, label := none, edges := [{ value := none, to_key := 1 }] }
      [{ key := 1, label := none, edges := [] }]
      { value := none, to_key := 1 } []).2 (by decide) rfl rfl (by decide) (by decide)

/-- Claim C4: the claim states that no public operation can panic. The code
does panic: on the graph `exC4g` (vertices 3 and 4, single edge 3 -> 4, all
labels and values present), the public call `remove_edge(3, 4)` passes both
existence checks and then panics inside the unlink routine, which unwraps
the absent `next` pointer of the single edge cell. The model returns `none`
(failure) instead of a boolean. -/
theorem claim_c4_remove_edge_panics : exC4g.remove_edge 3 4 = none := by decide

/-- Claim C9: the claim states that exhausting a fresh vertex (or edge)
iterator yields one item per node pairing the key with its optional label
(or value). The code instead unwraps the label (`label.get_ref()`), so a
vertex without a label (as produced by plain `add_vertex`) makes the first
`next()` call panic; likewise for an edge without a value. Evaluated on the
one-vertex graph `exOne` and on the valueless edge chain of `exC7v`. -/
theorem claim_c9_iterator_panics :
    vertex_iter_list exOne.vertices = none ∧ edge_iter_list exC7v.edges = none := by
  exact ⟨rfl, rfl⟩

end RGraph

namespace RGraph

set_option linter.unusedSectionVars false
set_option linter.unusedVariables false

variable {K L V : Type} [DecidableEq K]

theorem GraphUtils.get_vertex_imm_add_vertex {c : List (Vertex K L V)} {k : K}
    {w : Vertex K L V}
    (hnone : GraphUtils.get_vertex_imm c k = none) (hw : w.key = k) :
    GraphUtils.get_vertex_imm (GraphUtils.add_vertex c w) k = some w := by
  rw [GraphUtils.add_vertex_eq_append]
  exact GraphUtils.get_vertex_imm_append (GraphUtils.get_vertex_imm_none_forall hnone) hw

/-- Claim C5: after a first add of key k succeeds through any of the three
`add_vertex` shapes, a second add of k through any shape returns false and
leaves the graph unchanged, and the first add incremented `len` by one. -/
theorem claim_c5_add_vertex_unique (g g1 : Graph K L V) (k : K) (l l2 : L)
    (ol ol2 : Option L)
    (h : g.add_vertex k = (true, g1) ∨ g.add_vertex_l k l = (true, g1) ∨
         g.add_vertex_opt_l k ol = (true, g1)) :
    g1.add_vertex k = (false, g1) ∧ g1.add_vertex_l k l2 = (false, g1) ∧
    g1.add_vertex_opt_l k ol2 = (false, g1) ∧ g1.len = g.len + 1 := by
  have hmain : g1.vertex_exist k = true ∧ g1.len = g.len + 1 := by
    have hbase : ∀ w : Vertex K L V, w.key = k →
        g.vertex_exist k = false →
        g1 = { g with vertices := GraphUtils.add_vertex g.vertices w, len := g.len + 1 } →
        g1.vertex_exist k = true ∧ g1.len = g.len + 1 := by
      intro w hw hfalse hg1
      have hnone : GraphUtils.get_vertex_imm g.vertices k = none := by
        cases hgv : GraphUtils.get_vertex_imm g.vertices k with
        | none => rfl
        | some u =>
          rw [Graph.vertex_exist_eq, hgv] at hfalse
          simp at hfalse
      subst hg1
      constructor
      · rw [Graph.vertex_exist_eq]
        have := GraphUtils.get_vertex_imm_add_vertex hnone hw
        simp only []
        rw [this]
        rfl
      · rfl
    rcases h with h | h | h
    · by_cases he : g.vertex_exist k
      · simp [Graph.add_vertex, he] at h
      · have hfalse : g.vertex_exist k = false := by simpa using he
        simp [Graph.add_vertex, hfalse] at h
        exact hbase (Vertex.new k) rfl hfalse h.symm
    · by_cases he : g.vertex_exist k
      · simp [Graph.add_vertex_l, he] at h
      · have hfalse : g.vertex_exist k = false := by simpa using he
        simp [Graph.add_vertex_l, hfalse] at h
        exact hbase (Vertex.new_with_label k l) rfl hfalse h.symm
    · by_cases he : g.vertex_exist k
      · cases ol <;> simp [Graph.add_vertex_opt_l, he] at h
      · have hfalse : g.vertex_exist k = false := by simpa using he
        cases ol with
        | none =>
          simp [Graph.add_vertex_opt_l, hfalse] at h
          exact hbase (Vertex.new k) rfl hfalse h.symm
        | some lx =>
          simp [Graph.add_vertex_opt_l, hfalse] at h
          exact hbase (Vertex.new_with_label k lx) rfl hfalse h.symm
  obtain ⟨hex, hlen⟩ := hmain
  refine ⟨?_, ?_, ?_, hlen⟩
  · simp [Graph.add_vertex, hex]
  · simp [Graph.add_vertex_l, hex]
  · simp [Graph.add_vertex_opt_l, hex]

/-- Claim C5 witness: scenario 1 of the spec on the empty graph, key 0. -/
theorem claim_c5_add_vertex_unique_witness :
    exOne.add_vertex 0 = (false, exOne) ∧ exOne.add_vertex_l 0 7 = (false, exOne) ∧
    exOne.add_vertex_opt_l 0 (some 7) = (false, exOne) ∧
    exOne.len = (Graph.new : Graph Nat Nat Nat).len + 1 :=
  claim_c5_add_vertex_unique (Graph.new : Graph Nat Nat Nat) exOne 0 7 7
    (some 7) (some 7) (Or.inl (by decide))

/-- Claim C6: every one of the three `add_edge` shapes returns false and
performs no mutation when either endpoint key is absent from the graph,
whatever the supplied value. -/
theorem claim_c6_add_edge_needs_vertices (g : Graph K L V) (a b : K) (w : V)
    (ow : Option V)
    (h : g.vertex_exist a = false ∨ g.vertex_exist b = false) :
    g.add_edge a b = some (false, g) ∧ g.add_edge_v a b w = some (false, g) ∧
    g.add_edge_opt_v a b ow = some (false, g) := by
  have hg : (g.vertex_exist a && g.vertex_exist b) = false := by
    rcases h with h | h <;> simp [h]
  refine ⟨?_, ?_, ?_⟩ <;>
    simp [Graph.add_edge, Graph.add_edge_v, Graph.add_edge_opt_v, hg]

/-- Claim C6 witness: on the one-vertex graph, adding an edge to the absent
key 5 fails in all three shapes. -/
theorem claim_c6_add_edge_needs_vertices_witness :
    exOne.add_edge 0 5 = some (false, exOne) ∧
    exOne.add_edge_v 0 5 4 = some (false, exOne) ∧
    exOne.add_edge_opt_v 0 5 (some 4) = some (false, exOne) :=
  claim_c6_add_edge_needs_vertices exOne 0 5 4 (some 4) (Or.inr (by decide))

end RGraph

namespace RGraph

set_option linter.unusedSectionVars false
set_option linter.unusedVariables false

variable {K L V : Type} [DecidableEq K]

theorem Graph.delegate_false_eq {g g2 : Graph K L V} {a b : K}
    {f : Vertex K L V → Option (Bool × Vertex K L V)}
    (hf : ∀ v w, f v = some (false, w) → w = v)
    (h : (if g.vertex_exist a && g.vertex_exist b then
            (GraphUtils.get_vertex_mut_apply g.vertices a f).map
              (fun p => (p.1, { g with vertices := p.2 }))
          else some (false, g)) = some (false, g2)) : g2 = g := by
  by_cases hg : (g.vertex_exist a && g.vertex_exist b) = true
  · simp only [hg, if_true] at h
    cases hr : GraphUtils.get_vertex_mut_apply g.vertices a f with
    | none => rw [hr] at h; simp at h
    | some q =>
      cases q with
      | mk bb c2 =>
        rw [hr] at h
        simp at h
        obtain ⟨hb, hcc⟩ := h
        subst hb
        have hc2 := GraphUtils.get_vertex_mut_apply_false hf hr
        rw [← hcc, hc2]
  · have hg2 : (g.vertex_exist a && g.vertex_exist b) = false := by simpa using hg
    simp only [hg2, Bool.false_eq_true, if_false] at h
    simp at h
    exact h.symm

/-- Claim C7: every fallible graph-level or vertex-level operation that
returns false leaves the structure exactly as it was before the call: no
partial mutation. For the operations that can fail inside (modelled with
`Option`), returning false means completing with `some` and result false. -/
theorem claim_c7_false_means_unchanged (g : Graph K L V) (v : Vertex K L V)
    (a b k : K) (l : L) (ol : Option L) (w : V) (ow : Option V) :
    ((g.add_vertex k).1 = false → (g.add_vertex k).2 = g) ∧
    ((g.add_vertex_l k l).1 = false → (g.add_vertex_l k l).2 = g) ∧
    ((g.add_vertex_opt_l k ol).1 = false → (g.add_vertex_opt_l k ol).2 = g) ∧
    (∀ g2, g.add_edge a b = some (false, g2) → g2 = g) ∧
    (∀ g2, g.add_edge_v a b w = some (false, g2) → g2 = g) ∧
    (∀ g2, g.add_edge_opt_v a b ow = some (false, g2) → g2 = g) ∧
    (∀ g2, g.remove_vertex k = some (false, g2) → g2 = g) ∧
    (∀ g2, g.remove_edge a b = some (false, g2) → g2 = g) ∧
    ((g.set_vertex_label k l).1 = false → (g.set_vertex_label k l).2 = g) ∧
    ((g.set_vertex_label_opt k ol).1 = false → (g.set_vertex_label_opt k ol).2 = g) ∧
    ((g.remove_vertex_label k).1 = false → (g.remove_vertex_label k).2 = g) ∧
    (∀ g2, g.set_edge_value a b w = some (false, g2) → g2 = g) ∧
    (∀ g2, g.set_edge_value_opt a b ow = some (false, g2) → g2 = g) ∧
    (∀ g2, g.remove_edge_value a b = some (false, g2) → g2 = g) ∧
    ((v.add_edge b).1 = false → (v.add_edge b).2 = v) ∧
    ((v.add_edge_v b w).1 = false → (v.add_edge_v b w).2 = v) ∧
    ((v.add_edge_opt_v b ow).1 = false → (v.add_edge_opt_v b ow).2 = v) ∧
    (∀ v2, v.remove_edge b = some (false, v2) → v2 = v) ∧
    ((v.set_edge_value b w).1 = false → (v.set_edge_value b w).2 = v) ∧
    ((v.set_edge_value_opt b ow).1 = false → (v.set_edge_value_opt b ow).2 = v) ∧
    ((v.remove_edge_value b).1 = false → (v.remove_edge_value b).2 = v) := by
  refine ⟨?_, ?_, ?_, ?_, ?_, ?_, ?_, ?_, ?_, ?_, ?_, ?_, ?_, ?_, ?_, ?_, ?_, ?_,
    ?_, ?_, ?_⟩
  · by_cases hex : g.vertex_exist k <;> simp [Graph.add_vertex, hex]
  · by_cases hex : g.vertex_exist k <;> simp [Graph.add_vertex_l, hex]
  · by_cases hex : g.vertex_exist k <;> cases ol <;> simp [Graph.add_vertex_opt_l, hex]
  · exact fun g2 h => Graph.delegate_false_eq
      (fun u u2 hu => Vertex.add_edge_false_eq (Option.some.inj hu)) h
  · exact fun g2 h => Graph.delegate_false_eq
      (fun u u2 hu => Vertex.add_edge_v_false_eq (Option.some.inj hu)) h
  · exact fun g2 h => Graph.delegate_false_eq
      (fun u u2 hu => Vertex.add_edge_opt_v_false_eq (Option.some.inj hu)) h
  · intro g2 h
    by_cases hex : g.vertex_exist k
    · exfalso
      cases h1 : GraphUtils.remove_vertex g.vertices k with
      | none => simp [Graph.remove_vertex, hex, h1] at h
      | some c1 =>
        cases h2 : GraphUtils.remove_edge_to c1 k with
        | none => simp [Graph.remove_vertex, hex, h1, h2] at h
        | some c2 => simp [Graph.remove_vertex, hex, h1, h2] at h
    · have hfex : g.vertex_exist k = false := by simpa using hex
      simp [Graph.remove_vertex, hfex] at h
      exact h.symm
  · exact fun g2 h => Graph.delegate_false_eq
      (fun u u2 hu => Vertex.remove_edge_false hu) h
  · by_cases hex : g.vertex_exist k <;> simp [Graph.set_vertex_label, hex]
  · by_cases hex : g.vertex_exist k <;> simp [Graph.set_vertex_label_opt, hex]
  · by_cases hex : g.vertex_exist k <;> simp [Graph.remove_vertex_label, hex]
  · exact fun g2 h => Graph.delegate_false_eq
      (fun u u2 hu => Vertex.set_edge_value_false_eq (Option.some.inj hu)) h
  · exact fun g2 h => Graph.delegate_false_eq
      (fun u u2 hu => Vertex.set_edge_value_opt_false_eq (Option.some.inj hu)) h
  · exact fun g2 h => Graph.delegate_false_eq
      (fun u u2 hu => Vertex.remove_edge_value_false_eq (Option.some.inj hu)) h
  · by_cases he : v.edge_exist b <;> simp [Vertex.add_edge, he]
  · by_cases he : v.edge_exist b <;> simp [Vertex.add_edge_v, he]
  · by_cases he : v.edge_exist b <;> cases ow <;> simp [Vertex.add_edge_opt_v, he]
  · exact fun v2 h => Vertex.remove_edge_false h
  · by_cases he : v.edge_exist b <;> simp [Vertex.set_edge_value, he]
  · by_cases he : v.edge_exist b <;> simp [Vertex.set_edge_value_opt, he]
  · by_cases he : v.edge_exist b <;> simp [Vertex.remove_edge_value, he]

/-- Claim C7 witness: every conjunct fired on concrete data. On the graph
`exTwo`, adding the existing vertex 0 fails unchanged; edge operations
towards the absent key 6 fail unchanged; removing or relabelling the absent
vertex 7 fails unchanged. On the standalone vertex `exC7v`, re-adding the
existing edge 5 fails unchanged and removing or revaluing the absent edge 6
fails unchanged. -/
theorem claim_c7_false_means_unchanged_witness :
    (exTwo.add_vertex 0).2 = exTwo ∧
    (exTwo.add_vertex_l 0 3).2 = exTwo ∧
    (exTwo.add_vertex_opt_l 0 (some 3)).2 = exTwo ∧
    (exTwo = exTwo) ∧ (exTwo = exTwo) ∧ (exTwo = exTwo) ∧ (exTwo = exTwo) ∧
    (exTwo = exTwo) ∧
    (exTwo.set_vertex_label 7 3).2 = exTwo ∧
    (exTwo.set_vertex_label_opt 7 none).2 = exTwo ∧
    (exTwo.remove_vertex_label 7).2 = exTwo ∧
    (exTwo = exTwo) ∧ (exTwo = exTwo) ∧ (exTwo = exTwo) ∧
    (exC7v.add_edge 5).2 = exC7v ∧
    (exC7v.add_edge_v 5 4).2 = exC7v ∧
    (exC7v.add_edge_opt_v 5 (some 4)).2 = exC7v ∧
    (exC7v = exC7v) ∧
    (exC7v.set_edge_value 6 4).2 = exC7v ∧
    (exC7v.set_edge_value_opt 6 none).2 = exC7v ∧
    (exC7v.remove_edge_value 6).2 = exC7v := by
  obtain ⟨a1, a2, a3, _, _, _, _, _, _, _, _, _, _, _, b1, b2, b3, _, _, _, _⟩ :=
    claim_c7_false_means_unchanged exTwo exC7v 0 5 0 3 (some 3) 4 (some 4)
  obtain ⟨_, _, _, c4, c5, c6, c7, c8, c9, c10, c11, c12, c13, c14, _, _, _,
    d1, d2, d3, d4⟩ :=
    claim_c7_false_means_unchanged exTwo exC7v 0 6 7 3 none 4 none
  exact ⟨a1 (by decide), a2 (by decide), a3 (by decide),
    c4 exTwo (by decide), c5 exTwo (by decide), c6 exTwo (by decide),
    c7 exTwo (by decide), c8 exTwo (by decide),
    c9 (by decide), c10 (by decide), c11 (by decide),
    c12 exTwo (by decide), c13 exTwo (by decide), c14 exTwo (by decide),
    b1 (by decide), b2 (by decide), b3 (by decide),
    d1 exC7v (by decide), d2 (by decide), d3 (by decide), d4 (by decide)⟩

end RGraph

namespace RGraph

set_option linter.unusedSectionVars false
set_option linter.unusedVariables false

variable {K L V : Type} [DecidableEq K]

theorem GraphUtils.get_vertex_imm_isSome_of_mem {c : List (Vertex K L V)} {k : K}
    {u : Vertex K L V} (hu : u ∈ c) (huk : u.key = k) :
    (GraphUtils.get_vertex_imm c k).isSome = true := by
  induction c with
  | nil => simp at hu
  | cons x rest ih =>
    by_cases hx : x.key = k
    · simp [GraphUtils.get_vertex_imm, hx]
    · rcases List.mem_cons.mp hu with h1 | h1
      · subst h1
        exact absurd huk hx
      · simp [GraphUtils.get_vertex_imm, hx]
        exact ih h1

/-- Claim C2: on a well-formed graph (unique vertex keys, unique edge
targets per vertex), whenever `remove_vertex k` completes and returns true,
the vertex k is gone and no edge of any remaining vertex targets k. -/
theorem claim_c2_remove_vertex_no_dangling (g g2 : Graph K L V) (k : K)
    (hwf : WF g) (h : g.remove_vertex k = some (true, g2)) :
    g2.vertex_exist k = false ∧ ∀ x, g2.edge_exist x k = false := by
  by_cases hex : g.vertex_exist k
  · cases h1 : GraphUtils.remove_vertex g.vertices k with
    | none => simp [Graph.remove_vertex, hex, h1] at h
    | some c1 =>
      cases h2 : GraphUtils.remove_edge_to c1 k with
      | none => simp [Graph.remove_vertex, hex, h1, h2] at h
      | some c2 =>
        have hg2 : { g with vertices := c2 } = g2 := by
          simpa [Graph.remove_vertex, hex, h1, h2] using h
        obtain ⟨hsub, hknot⟩ := GraphUtils.remove_vertex_some hwf.1 h1
        obtain ⟨hkeys, hnoedge⟩ := GraphUtils.remove_edge_to_spec h2
        have hkn2 : k ∉ c2.map Vertex.key := by
          rw [hkeys]
          exact hknot
        subst hg2
        constructor
        · rw [Graph.vertex_exist_eq]
          have hnone : GraphUtils.get_vertex_imm c2 k = none := by
            refine GraphUtils.get_vertex_imm_eq_none ?_
            intro u hum heq
            exact hkn2 (List.mem_map.mpr ⟨u, hum, heq⟩)
          simp [hnone]
        · intro x
          have hall : ∀ u ∈ c2, u.edge_exist k = false :=
            hnoedge (fun u hum => hwf.2 u (hsub u hum))
          cases hgx : GraphUtils.get_vertex_imm c2 x with
          | none => simp [Graph.edge_exist, hgx]
          | some u =>
            have hum : u ∈ c2 := (GraphUtils.get_vertex_imm_some hgx).1
            simp [Graph.edge_exist, hgx, hall u hum]
  · simp [Graph.remove_vertex, hex] at h

/-- Claim C2 witness: removing the non-head vertex 1 from the three-vertex
graph `exC2pre`, in which vertex 0 has the non-head edge 0 -> 1, completes
with true; afterwards vertex 1 is gone and no edge targets key 1. -/
theorem claim_c2_remove_vertex_no_dangling_witness :
    WF exC2pre ∧ exC2pre.remove_vertex 1 = some (true, exC2post) ∧
    (exC2post.vertex_exist 1 = false ∧ ∀ x, exC2post.edge_exist x 1 = false) :=
  ⟨by decide, by decide,
    claim_c2_remove_vertex_no_dangling exC2pre exC2post 1 (by decide) (by decide)⟩

/-- Claim C8: on a graph satisfying the no-dangling-edge invariant of the
data model, `adjacent(from, to)` completes and returns exactly the boolean
`edge_exist(from, to)`. -/
theorem claim_c8_adjacent_eq_edge_exist (g : Graph K L V) (fk t : K)
    (h : NoDangling g) : g.adjacent fk t = some (g.edge_exist fk t) := by
  cases hv : GraphUtils.get_vertex_imm g.vertices fk with
  | none =>
    have hex : g.vertex_exist fk = false := by simp [Graph.vertex_exist, hv]
    simp [Graph.adjacent, Graph.edge_exist, hv, hex]
  | some v =>
    have hex : g.vertex_exist fk = true := by simp [Graph.vertex_exist, hv]
    have hee : g.edge_exist fk t = v.edge_exist t := by simp [Graph.edge_exist, hv]
    cases het : v.edge_exist t with
    | true =>
      have hsome : ∃ e, VertexUtils.get_edge_imm v.edges t = some e := by
        rw [Vertex.edge_exist_eq] at het
        cases hge : VertexUtils.get_edge_imm v.edges t with
        | none => rw [hge] at het; simp at het
        | some e => exact ⟨e, rfl⟩
      obtain ⟨e, he⟩ := hsome
      obtain ⟨hem, hek⟩ := VertexUtils.get_edge_imm_some he
      have hvm : v ∈ g.vertices := (GraphUtils.get_vertex_imm_some hv).1
      have htk : t ∈ g.vertices.map Vertex.key := hek ▸ h v hvm e hem
      have hext : g.vertex_exist t = true := by
        rcases List.mem_map.mp htk with ⟨u, hu, huk⟩
        rw [Graph.vertex_exist_eq]
        exact GraphUtils.get_vertex_imm_isSome_of_mem hu huk
      simp [Graph.adjacent, hex, hext, hv, hee, het]
    | false =>
      by_cases hext : g.vertex_exist t = true
      · simp [Graph.adjacent, hex, hext, hv, hee, het]
      · have hextf : g.vertex_exist t = false := by simpa using hext
        simp [Graph.adjacent, hex, hextf, hee, het]

/-- Claim C8 witness: on the two-vertex graph with edge 0 -> 1 (which has no
dangling edges), adjacency and edge existence agree; instantiated at the
present edge, so the shared boolean is true. -/
theorem claim_c8_adjacent_eq_edge_exist_witness :
    NoDangling exTwo ∧ exTwo.adjacent 0 1 = some (exTwo.edge_exist 0 1) ∧
    exTwo.edge_exist 0 1 = true :=
  ⟨by decide, claim_c8_adjacent_eq_edge_exist exTwo 0 1 (by decide), by decide⟩

/-- Claim C10: if vertex k exists and has no edge to itself, then
`add_edge(k, k)` succeeds and creates the self-loop: nothing in the code
forbids the two endpoint roles being played by the same vertex. -/
theorem claim_c10_self_loop (g : Graph K L V) (k : K)
    (h1 : g.vertex_exist k = true) (h2 : g.edge_exist k k = false) :
    ∃ g2, g.add_edge k k = some (true, g2) ∧ g2.edge_exist k k = true := by
  cases hv : GraphUtils.get_vertex_imm g.vertices k with
  | none => rw [Graph.vertex_exist_eq, hv] at h1; simp at h1
  | some v =>
    obtain ⟨pre, post, hc, hpre⟩ := GraphUtils.get_vertex_imm_decomp hv
    have hvk : v.key = k := (GraphUtils.get_vertex_imm_some hv).2
    have hvee : v.edge_exist k = false := by
      simpa [Graph.edge_exist, hv] using h2
    have hadd : v.add_edge k
        = (true, { v with edges := VertexUtils.add_edge v.edges (Edge.new k) }) := by
      simp [Vertex.add_edge, hvee]
    refine ⟨{ g with
      vertices := pre ++ { v with edges := VertexUtils.add_edge v.edges (Edge.new k) } :: post },
      ?_, ?_⟩
    · have hmut : GraphUtils.get_vertex_mut_apply g.vertices k
          (fun u => some (u.add_edge k))
          = some (true,
              pre ++ { v with edges := VertexUtils.add_edge v.edges (Edge.new k) } :: post) := by
        rw [hc, GraphUtils.get_vertex_mut_apply_decomp _ hpre hvk]
        rw [hadd]
        rfl
      simp [Graph.add_edge, h1, hmut]
    · have hnone : VertexUtils.get_edge_imm v.edges k = none := by
        rw [Vertex.edge_exist_eq] at hvee
        cases hge : VertexUtils.get_edge_imm v.edges k with
        | none => rfl
        | some e => rw [hge] at hvee; simp at hvee
      have hfind : VertexUtils.get_edge_imm
          (VertexUtils.add_edge v.edges (Edge.new k)) k = some (Edge.new k) := by
        rw [VertexUtils.add_edge_eq_append]
        exact VertexUtils.get_edge_imm_append
          (VertexUtils.get_edge_imm_none_forall hnone) rfl
      have hgv2 : GraphUtils.get_vertex_imm
          (pre ++ { v with edges := VertexUtils.add_edge v.edges (Edge.new k) } :: post) k
          = some { v with edges := VertexUtils.add_edge v.edges (Edge.new k) } :=
        GraphUtils.get_vertex_imm_append hpre hvk
      simp [Graph.edge_exist, hgv2, Vertex.edge_exist, hfind]

/-- Claim C10 witness: on the one-vertex graph, adding the self-loop 0 -> 0
succeeds and the loop then exists. -/
theorem claim_c10_self_loop_witness :
    (exOne.vertex_exist 0 = true ∧ exOne.edge_exist 0 0 = false) ∧
    ∃ g2, exOne.add_edge 0 0 = some (true, g2) ∧ g2.edge_exist 0 0 = true :=
  ⟨⟨by decide, by decide⟩, claim_c10_self_loop exOne 0 (by decide) (by decide)⟩

end RGraph
